import Mathlib

/-
  Verification development for the request-routing core of the dropshot
  repository (dropshot/src/router.rs).

  The Rust code is embedded shallowly:
  * BTreeMap String V is embedded as a sorted association list
    (List (String × V)) with alGet / alInsert.
  * panic! at registration time is embedded as Except String.
  * HttpError results of lookup_route are embedded as LookupError, keeping
    the status kind, the external message, and the Allow header list.
  * semver.Version is embedded as a (major, minor, patch) triple of Nat
    with lexicographic order; the router only uses equality, ordering and
    range inclusion on versions.
-/

/-- A semantic version, embedded as its (major, minor, patch) triple. -/
structure SemVer where
  major : Nat
  minor : Nat
  patch : Nat
deriving DecidableEq, Repr

/-- Strict lexicographic order on semantic versions. -/
def vlt (a b : SemVer) : Bool :=
  if a.major < b.major then true
  else if b.major < a.major then false
  else if a.minor < b.minor then true
  else if b.minor < a.minor then false
  else decide (a.patch < b.patch)

/-- Non-strict lexicographic order on semantic versions. -/
def vle (a b : SemVer) : Bool :=
  vlt a b || decide (a = b)

/-- Modelled from the spec: the type ApiEndpointVersions lives in
dropshot/src/api_description.rs, which is not part of the provided sources.
Spec section 4.5: the distinguished value All, and the half-open range forms
From(lower) (lower inclusive), Until(upper) (upper exclusive) and
FromUntil(lower, upper) (lower inclusive, upper exclusive). -/
inductive ApiEndpointVersions where
  | all
  | fromV (lo : SemVer)
  | untilV (hi : SemVer)
  | fromUntil (lo : SemVer) (hi : SemVer)
deriving DecidableEq, Repr

/-- Modelled from the spec (section 4.5): All matches every version,
including None; any non-All predicate matches only Some version inside its
range and never matches None. -/
def ApiEndpointVersions.matches : ApiEndpointVersions → Option SemVer → Bool
  | .all, _ => true
  | .fromV lo, some v => vle lo v
  | .untilV hi, some v => vlt v hi
  | .fromUntil lo hi, some v => vle lo v && vlt v hi
  | .fromV _, none => false
  | .untilV _, none => false
  | .fromUntil _ _, none => false

/-- Inclusive lower bound of the version range of a predicate; the SemVer
triples have the least element 0.0.0, so Until(hi) has lower bound 0.0.0. -/
def ApiEndpointVersions.lowerBound : ApiEndpointVersions → SemVer
  | .all => ⟨0, 0, 0⟩
  | .fromV lo => lo
  | .untilV _ => ⟨0, 0, 0⟩
  | .fromUntil lo _ => lo

/-- Exclusive upper bound of the version range of a predicate; none means
unbounded above. -/
def ApiEndpointVersions.upperBound : ApiEndpointVersions → Option SemVer
  | .all => none
  | .fromV _ => none
  | .untilV hi => some hi
  | .fromUntil _ hi => some hi

/-- vltO l u is true when l is strictly below the (possibly absent,
meaning infinite) exclusive upper bound u. -/
def vltO (l : SemVer) : Option SemVer → Bool
  | none => true
  | some u => vlt l u

/-- Modelled from the spec (section 4.5): overlaps(a, b) is true iff some
version is matched by both predicates; All overlaps with everything.  For
two non-All predicates, the half-open ranges [lowerBound, upperBound)
intersect exactly when each lower bound is below the other range's upper
bound. -/
def ApiEndpointVersions.overlapsWith (a b : ApiEndpointVersions) : Bool :=
  match a, b with
  | .all, _ => true
  | _, .all => true
  | a, b => vltO a.lowerBound b.upperBound && vltO b.lowerBound a.upperBound

/-- An endpoint registration, keeping exactly the fields the router reads:
the method, the registration path, the version predicate, and (standing in
for the opaque handler reference and metadata payload) the handler label
and operation id. -/
structure ApiEndpoint where
  handler : String
  operationId : String
  method : String
  path : String
  versions : ApiEndpointVersions
deriving DecidableEq, Repr

/-- PathSegment from router.rs: a registration-path segment. -/
inductive PathSegment where
  | literal (s : String)
  | varnameSegment (s : String)
  | varnameWildcard (s : String)
deriving DecidableEq, Repr

/-- A value bound to a path variable: VariableValue from router.rs. -/
inductive VariableValue where
  | string (s : String)
  | components (cs : List String)
deriving DecidableEq, Repr

/-- Sorted association list standing in for BTreeMap String V: lookup. -/
def alGet {V : Type} : List (String × V) → String → Option V
  | [], _ => none
  | (k, v) :: rest, key => if key = k then some v else alGet rest key

/-- Lexicographic order on character lists by code point; on UTF-8
strings this coincides with the byte-wise order that the Rust BTreeMap
of String keys uses. -/
def charListLt : List Char → List Char → Bool
  | [], [] => false
  | [], _ :: _ => true
  | _ :: _, [] => false
  | a :: as, b :: bs =>
    if a.toNat < b.toNat then true
    else if b.toNat < a.toNat then false
    else charListLt as bs

/-- String order used for BTreeMap keys. -/
def strLt (a b : String) : Bool :=
  charListLt a.toList b.toList

/-- Sorted association list standing in for BTreeMap String V: insertion
keeping keys sorted, replacing the value of an existing key. -/
def alInsert {V : Type} : List (String × V) → String → V → List (String × V)
  | [], key, v => [(key, v)]
  | (k, w) :: rest, key, v =>
    if key = k then (key, v) :: rest
    else if strLt key k then (key, v) :: (k, w) :: rest
    else (k, w) :: alInsert rest key v

/-- Upper-casing of a method name, character by character (Rust
str::to_uppercase; HTTP method names are ASCII). -/
def upperString (s : String) : String :=
  String.mk (s.toList.map Char.toUpper)

/-- VariableSet from router.rs: BTreeMap String VariableValue. -/
abbrev VariableSet : Type := List (String × VariableValue)

/-- HttpRouterNode from router.rs: methods bucket map, literal edges,
variable edge and wildcard (rest) edge. -/
inductive HttpRouterNode where
  | mk
      (methods : List (String × List ApiEndpoint))
      (literalEdges : Option (List (String × HttpRouterNode)))
      (variableEdge : Option (String × HttpRouterNode))
      (restEdge : Option (String × HttpRouterNode))

/-- Field accessor for methods. -/
def HttpRouterNode.methods : HttpRouterNode → List (String × List ApiEndpoint)
  | .mk m _ _ _ => m

/-- Field accessor for literalEdges. -/
def HttpRouterNode.literalEdges :
    HttpRouterNode → Option (List (String × HttpRouterNode))
  | .mk _ l _ _ => l

/-- Field accessor for variableEdge. -/
def HttpRouterNode.variableEdge : HttpRouterNode → Option (String × HttpRouterNode)
  | .mk _ _ v _ => v

/-- Field accessor for restEdge. -/
def HttpRouterNode.restEdge : HttpRouterNode → Option (String × HttpRouterNode)
  | .mk _ _ _ r => r

/-- HttpRouterNode::new(): a node with no handlers and no edges. -/
def HttpRouterNode.new : HttpRouterNode :=
  .mk [] none none none

/-- HttpRouter from router.rs: the root node and the versioned-routes flag. -/
structure HttpRouter where
  root : HttpRouterNode
  has_versioned_routes : Bool

/-- HttpRouter::new(): empty root, flag false. -/
def HttpRouter.new : HttpRouter :=
  { root := HttpRouterNode.new, has_versioned_routes := false }

/-- Successful lookup payload: RouterLookupResult with the parts of
RequestEndpointMetadata that the embedding keeps. -/
structure RouterLookupResult where
  handler : String
  operationId : String
  vars : VariableSet
deriving DecidableEq, Repr

/-- The HttpError outcomes that lookup_route can produce, keeping the
status kind, the external message and, for 405, the Allow header values. -/
inductive LookupError where
  | badRequest (msg : String)
  | notFound (msg : String)
  | methodNotAllowed (allow : List String)
deriving DecidableEq, Repr

/-- The character "left brace", written via its code point to keep brace
characters out of the source text. -/
def lbrace : Char := Char.ofNat 123

/-- The character "right brace", written via its code point. -/
def rbrace : Char := Char.ofNat 125

/-- The character "colon". -/
def colonChar : Char := ':'

/-- PathSegment::from in router.rs, with the assert panics embedded as
Except.error carrying the assert message. -/
def PathSegment.fromStr (segment : String) : Except String PathSegment :=
  let cs := segment.toList
  if cs.head? = some lbrace ∨ cs.getLast? = some rbrace then
    if cs.head? ≠ some lbrace then
      .error "HTTP URI path segment variable missing leading \"\x7b\""
    else if cs.getLast? ≠ some rbrace then
      .error "HTTP URI path segment variable missing trailing \"\x7d\""
    else
      let inner := (cs.drop 1).dropLast
      let name := inner.takeWhile (fun c => c ≠ colonChar)
      let rest := inner.dropWhile (fun c => c ≠ colonChar)
      let pat : Option (List Char) :=
        match rest with
        | [] => none
        | _ :: tl => some tl
      if name = [] then
        .error "HTTP URI path segment variable name must not be empty"
      else
        match pat with
        | some p =>
          if p = ['.', '*'] then .ok (.varnameWildcard (String.mk name))
          else .error "Only the pattern \x27.*\x27 is currently supported"
        | none => .ok (.varnameSegment (String.mk name))
  else
    .ok (.literal segment)

/-- Splitting a character list at every slash, like Rust str::split of the
slash character: n separators produce n + 1 (possibly empty) chunks. -/
def splitOnSlash : List Char → List (List Char)
  | [] => [[]]
  | c :: rest =>
    match splitOnSlash rest with
    | [] => [[]]
    | s :: ss => if c = '/' then [] :: s :: ss else (c :: s) :: ss

/-- Value of a hexadecimal digit character, as used by percent-decoding. -/
def hexVal (c : Char) : Option Nat :=
  let n := c.toNat
  if 48 ≤ n ∧ n ≤ 57 then some (n - 48)
  else if 97 ≤ n ∧ n ≤ 102 then some (n - 87)
  else if 65 ≤ n ∧ n ≤ 70 then some (n - 55)
  else none

/-- UTF-8 bytes of a single character. -/
def charUtf8 (c : Char) : List Nat :=
  let n := c.toNat
  if n < 128 then [n]
  else if n < 2048 then [192 + n / 64, 128 + n % 64]
  else if n < 65536 then
    [224 + n / 4096, 128 + (n / 64) % 64, 128 + n % 64]
  else
    [240 + n / 262144, 128 + (n / 4096) % 64, 128 + (n / 64) % 64, 128 + n % 64]

/-- percent_decode_str from the percent-encoding crate: a percent sign
followed by two hex digits becomes that byte; a percent sign not followed
by two hex digits is passed through unchanged; every other character
contributes its UTF-8 bytes. -/
def pctDecodeBytes : List Char → List Nat
  | [] => []
  | '%' :: c1 :: c2 :: rest =>
    match hexVal c1, hexVal c2 with
    | some h, some l => (16 * h + l) :: pctDecodeBytes rest
    | _, _ => 37 :: pctDecodeBytes (c1 :: c2 :: rest)
  | c :: rest => charUtf8 c ++ pctDecodeBytes rest

/-- Whether a byte is a UTF-8 continuation byte. -/
def utf8Cont (b : Nat) : Bool :=
  decide (128 ≤ b) && decide (b ≤ 191)

/-- Strict UTF-8 decoding of a byte list (as Rust str::from_utf8 /
decode_utf8): rejects bad leads, bad continuations, overlong forms,
surrogates, and values above 0x10FFFF. -/
def utf8Decode : List Nat → Option (List Char)
  | [] => some []
  | b :: rest =>
    if b ≤ 127 then
      (utf8Decode rest).map (fun cs => Char.ofNat b :: cs)
    else if b ≤ 193 then none
    else if b ≤ 223 then
      match rest with
      | b1 :: rest2 =>
        if utf8Cont b1 then
          (utf8Decode rest2).map
            (fun cs => Char.ofNat ((b - 192) * 64 + (b1 - 128)) :: cs)
        else none
      | [] => none
    else if b ≤ 239 then
      match rest with
      | b1 :: b2 :: rest3 =>
        if utf8Cont b1 && utf8Cont b2
            && (decide (224 < b) || decide (160 ≤ b1))
            && (decide (b < 237) || decide (b1 ≤ 159)) then
          (utf8Decode rest3).map
            (fun cs =>
              Char.ofNat ((b - 224) * 4096 + (b1 - 128) * 64 + (b2 - 128)) :: cs)
        else none
      | _ => none
    else if b ≤ 244 then
      match rest with
      | b1 :: b2 :: b3 :: rest4 =>
        if utf8Cont b1 && utf8Cont b2 && utf8Cont b3
            && (decide (240 < b) || decide (144 ≤ b1))
            && (decide (b < 244) || decide (b1 ≤ 143)) then
          (utf8Decode rest4).map
            (fun cs =>
              Char.ofNat ((b - 240) * 262144 + (b1 - 128) * 4096
                + (b2 - 128) * 64 + (b3 - 128)) :: cs)
        else none
      | _ => none
    else none

/-- One request-path segment, as processed inside input_path_to_segments:
reject a literal dot-segment, then percent-decode and validate UTF-8. -/
def decodeSegment (seg : List Char) : Except String String :=
  if seg = ['.'] ∨ seg = ['.', '.'] then
    .error "dot-segments are not permitted"
  else
    match utf8Decode (pctDecodeBytes seg) with
    | some cs => .ok (String.mk cs)
    | none => .error "invalid utf-8 sequence"

/-- Collecting an iterator of Results, as Rust collect over Result does:
the first error short-circuits. -/
def collectResults {E A : Type} : List (Except E A) → Except E (List A)
  | [] => .ok []
  | .error e :: _ => .error e
  | .ok a :: rest =>
    match collectResults rest with
    | .error e => .error e
    | .ok as2 => .ok (a :: as2)

/-- input_path_to_segments from router.rs: split the raw request path on
slashes, drop empty segments, reject dot-segments, percent-decode the
rest. -/
def input_path_to_segments (path : String) : Except String (List String) :=
  collectResults
    (((splitOnSlash path.toList).filter (fun s => s ≠ [])).map decodeSegment)

/-- route_path_to_segments from router.rs: registration paths must begin
with a slash; only the final segment may be empty (trailing slash),
and it is dropped. -/
def route_path_to_segments (path : String) : Except String (List String) :=
  if path.toList.head? ≠ some '/' then
    .error ("route paths must begin with a \x27/\x27: \x27" ++ path ++ "\x27")
  else
    let ret := (splitOnSlash path.toList).drop 1
    if ret.dropLast.any (fun s => s = []) then
      .error ("path segments may not be empty: \x27" ++ path ++ "\x27")
    else
      let ret2 := if ret.getLast? = some [] then ret.dropLast else ret
      .ok (ret2.map (fun l => String.mk l))

/-- Update the methods field of a node. -/
def HttpRouterNode.withMethods :
    HttpRouterNode → List (String × List ApiEndpoint) → HttpRouterNode
  | .mk _ l v r, m => .mk m l v r

/-- Update the literalEdges field of a node. -/
def HttpRouterNode.withLiteralEdges :
    HttpRouterNode → Option (List (String × HttpRouterNode)) → HttpRouterNode
  | .mk m _ v r, l => .mk m l v r

/-- Update the variableEdge field of a node. -/
def HttpRouterNode.withVariableEdge :
    HttpRouterNode → Option (String × HttpRouterNode) → HttpRouterNode
  | .mk m l _ r, v => .mk m l v r

/-- Update the restEdge field of a node. -/
def HttpRouterNode.withRestEdge :
    HttpRouterNode → Option (String × HttpRouterNode) → HttpRouterNode
  | .mk m l v _, r => .mk m l v r

/-- Panic message of insert_var in router.rs. -/
def usedMoreThanOnceMsg (path vn : String) : String :=
  "URI path \"" ++ path ++ "\": variable name \"" ++ vn
    ++ "\" is used more than once"

/-- Panic message for conflicting variable names in HttpRouter::insert. -/
def differentNameMsg (path vn vn0 : String) : String :=
  "URI path \"" ++ path ++ "\": attempted to use variable name \"" ++ vn
    ++ "\", but a different name (\"" ++ vn0
    ++ "\") has already been used for this"

/-- Panic message for a duplicate route in HttpRouter::insert. -/
def duplicateRouteMsg (path methodname : String) : String :=
  "URI path \"" ++ path ++ "\": attempted to create duplicate route for method \""
    ++ methodname ++ "\""

/-- Panic message for overlapping version ranges in HttpRouter::insert. -/
def overlappingRangesMsg (path methodname : String) : String :=
  "URI path \"" ++ path
    ++ "\": attempted to register multiple handlers for method \""
    ++ methodname ++ "\" with overlapping version ranges"

/-- Panic message for segments after a wildcard in HttpRouter::insert. -/
def afterWildcardMsg (path vn : String) : String :=
  "URI path \"" ++ path
    ++ "\": attempted to match segments after the wildcard variable \""
    ++ vn ++ "\""

/-- The terminal method-bucket handling of HttpRouter::insert in
router.rs, run at the node where the registration path ends (the Rust
loop falls through to this code when the segment iterator is exhausted,
which for a wildcard segment happens at the wildcard child): locate the
bucket for the upper-cased method, panic on an overlapping or duplicate
version predicate, otherwise append the endpoint. -/
def insertTerminal (e : ApiEndpoint) (path : String)
    (node : HttpRouterNode) : Except String HttpRouterNode :=
  let methodname := (upperString e.method)
  let existing := (alGet node.methods methodname).getD []
  match existing.find? (fun h => h.versions.overlapsWith e.versions) with
  | some h =>
    if h.versions = e.versions then
      .error (duplicateRouteMsg path methodname)
    else
      .error (overlappingRangesMsg path methodname)
  | none =>
    .ok (node.withMethods (alInsert node.methods methodname (existing ++ [e])))

/-- The while loop of HttpRouter::insert in router.rs, over the remaining
raw registration segments.  varnames is the set of variable names already
seen on this path (insert_var).  Panics are embedded as Except.error with
the panic message. -/
def insertSegs (e : ApiEndpoint) (path : String) (varnames : List String)
    (segs : List String) (node : HttpRouterNode) :
    Except String HttpRouterNode :=
  match segs with
  | [] => insertTerminal e path node
  | raw :: rest =>
    match PathSegment.fromStr raw with
    | .error msg => .error msg
    | .ok (.literal lit) =>
      let lits := node.literalEdges.getD []
      let child := (alGet lits lit).getD HttpRouterNode.new
      match insertSegs e path varnames rest child with
      | .error msg => .error msg
      | .ok child2 =>
        .ok (node.withLiteralEdges (some (alInsert lits lit child2)))
    | .ok (.varnameSegment vn) =>
      if vn ∈ varnames then .error (usedMoreThanOnceMsg path vn)
      else
        match node.variableEdge with
        | none =>
          match insertSegs e path (vn :: varnames) rest HttpRouterNode.new with
          | .error msg => .error msg
          | .ok child2 => .ok (node.withVariableEdge (some (vn, child2)))
        | some (vn0, child) =>
          if vn ≠ vn0 then .error (differentNameMsg path vn vn0)
          else
            match insertSegs e path (vn :: varnames) rest child with
            | .error msg => .error msg
            | .ok child2 => .ok (node.withVariableEdge (some (vn0, child2)))
    | .ok (.varnameWildcard vn) =>
      if rest ≠ [] then .error (afterWildcardMsg path vn)
      else if vn ∈ varnames then .error (usedMoreThanOnceMsg path vn)
      else
        match node.restEdge with
        | none =>
          match insertTerminal e path HttpRouterNode.new with
          | .error msg => .error msg
          | .ok child2 => .ok (node.withRestEdge (some (vn, child2)))
        | some (vn0, child) =>
          if vn ≠ vn0 then .error (differentNameMsg path vn vn0)
          else
            match insertTerminal e path child with
            | .error msg => .error msg
            | .ok child2 => .ok (node.withRestEdge (some (vn0, child2)))

/-- HttpRouter::insert from router.rs: parse the registration path, extend
the trie, enforce the version-overlap rules, and set the versioned-routes
flag for a non-All predicate. -/
def HttpRouter.insert (r : HttpRouter) (e : ApiEndpoint) :
    Except String HttpRouter :=
  match route_path_to_segments e.path with
  | .error msg => .error msg
  | .ok segs =>
    match insertSegs e e.path [] segs r.root with
    | .error msg => .error msg
    | .ok root2 =>
      .ok { root := root2,
            has_versioned_routes :=
              if e.versions ≠ ApiEndpointVersions.all then true
              else r.has_versioned_routes }

/-- Register a list of endpoints in order; the first panic aborts. -/
def insertAll (r : HttpRouter) : List ApiEndpoint → Except String HttpRouter
  | [] => .ok r
  | e :: rest =>
    match r.insert e with
    | .error msg => .error msg
    | .ok r2 => insertAll r2 rest

/-- A router built from HttpRouter::new() by a sequence of inserts. -/
def buildRouter (eps : List ApiEndpoint) : Except String HttpRouter :=
  insertAll HttpRouter.new eps

/-- Extract the router from a successful build, defaulting to the empty
router (used only to name concrete routers in theorems whose build is
proved successful by computation). -/
def routerOf (eps : List ApiEndpoint) : HttpRouter :=
  match buildRouter eps with
  | .ok r => r
  | .error _ => HttpRouter.new

/-- find_handler_matching_version from router.rs: the first handler whose
version predicate matches the request version. -/
def find_handler_matching_version (handlers : List ApiEndpoint)
    (version : Option SemVer) : Option ApiEndpoint :=
  handlers.find? (fun h => h.versions.matches version)

/-- The while loop of HttpRouter::lookup_route: walk the trie over the
decoded request segments, with the literal-then-variable-then-wildcard
priority; taking a wildcard edge consumes every remaining segment. -/
def lookup_walk : HttpRouterNode → List String → VariableSet →
    Except LookupError (HttpRouterNode × VariableSet)
  | node, [], vars => .ok (node, vars)
  | node, seg :: rest, vars =>
    match alGet (node.literalEdges.getD []) seg with
    | some child => lookup_walk child rest vars
    | none =>
      match node.variableEdge with
      | some (vn, child) =>
        lookup_walk child rest (alInsert vars vn (VariableValue.string seg))
      | none =>
        match node.restEdge with
        | some (vn, child) =>
          .ok (child, alInsert vars vn (VariableValue.components (seg :: rest)))
        | none => .error (.notFound "no route found (no path in router)")

/-- The step of lookup_route after the while loop: a wildcard edge at the
reached node consumes the implicit empty path segment, binding the
wildcard variable to the empty Components list. -/
def consume_empty_wildcard (p : HttpRouterNode × VariableSet) :
    HttpRouterNode × VariableSet :=
  match p.1.restEdge with
  | some (vn, child) => (child, alInsert p.2 vn (VariableValue.components []))
  | none => p

/-- Rendering of the request version in the versioned 404 message. -/
def versionDisplay : Option SemVer → String
  | none => "<none>"
  | some v =>
    toString v.major ++ "." ++ toString v.minor ++ "." ++ toString v.patch

/-- The tail of HttpRouter::lookup_route: select the first version-matching
handler under the request method; otherwise 405 (with one Allow value per
method key of the node) when some method bucket has a version-matching
handler, else the versioned 404. -/
def lookup_classify (node : HttpRouterNode) (vars : VariableSet)
    (method : String) (version : Option SemVer) :
    Except LookupError RouterLookupResult :=
  let methodname := (upperString method)
  match find_handler_matching_version
      ((alGet node.methods methodname).getD []) version with
  | some h => .ok { handler := h.handler, operationId := h.operationId, vars := vars }
  | none =>
    if (node.methods.map Prod.snd).any
        (fun hs => (find_handler_matching_version hs version).isSome) then
      .error (.methodNotAllowed (node.methods.map Prod.fst))
    else
      .error (.notFound ("route has no handlers for version "
        ++ versionDisplay version))

/-- HttpRouter::lookup_route from router.rs.  Any failure of
input_path_to_segments is reported as a Bad Request whose message is
the fixed string "invalid path encoding" (map_err in the source discards
the inner parse error message). -/
def HttpRouter.lookup_route (r : HttpRouter) (method : String) (path : String)
    (version : Option SemVer) : Except LookupError RouterLookupResult :=
  match input_path_to_segments path with
  | .error _ => .error (.badRequest "invalid path encoding")
  | .ok segs =>
    match lookup_walk r.root segs [] with
    | .error err => .error err
    | .ok p =>
      let q := consume_empty_wildcard p
      lookup_classify q.1 q.2 method version

/-- iter_handlers_from_node from router.rs: for each method key in order,
the handlers of its bucket whose version predicate matches the filter
version, paired with the method name. -/
def iterHandlersFromNode (node : HttpRouterNode) (version : Option SemVer) :
    List (String × ApiEndpoint) :=
  node.methods.flatMap
    (fun mb => (mb.2.filter (fun h => h.versions.matches version)).map
      (fun h => (mb.1, h)))

/-- HttpRouterIter::iter_node from router.rs: the children of a node in
iteration order: literal edges (in key order), then the variable edge,
then the rest edge.  NOTE (faithful to the source): the rest edge is
wrapped in PathSegment::VarnameSegment, not VarnameWildcard. -/
def iterNodeChildren (node : HttpRouterNode) :
    List (PathSegment × HttpRouterNode) :=
  ((node.literalEdges.getD []).map
      (fun p => (PathSegment.literal p.1, p.2)))
    ++ (match node.variableEdge with
        | some (vn, n) => [(PathSegment.varnameSegment vn, n)]
        | none => [])
    ++ (match node.restEdge with
        | some (vn, n) => [(PathSegment.varnameSegment vn, n)]
        | none => [])

/-- The per-segment rendering of HttpRouterIter::path in router.rs. -/
def renderPathSegment : PathSegment → String
  | .literal s => s
  | .varnameSegment s => String.mk (lbrace :: (s.toList ++ [rbrace]))
  | .varnameWildcard s =>
    String.mk (lbrace :: (s.toList ++ [':', '.', '*', rbrace]))

/-- HttpRouterIter::path: join the rendered segments with slashes and
prepend a slash. -/
def renderPath (segs : List PathSegment) : String :=
  "/" ++ String.intercalate "/" (segs.map renderPathSegment)

/-- The preorder depth-first traversal performed by HttpRouterIter::next:
on arrival at a node its (version-filtered) handlers are yielded, then
the children are visited in iterNodeChildren order.  The fuel argument
bounds the recursion depth; any fuel at least the trie depth gives the
full traversal. -/
def endpointsAux (fuel : Nat) (acc : List PathSegment)
    (node : HttpRouterNode) (version : Option SemVer) :
    List (String × String × ApiEndpoint) :=
  match fuel with
  | 0 => []
  | fuel2 + 1 =>
    ((iterHandlersFromNode node version).map
        (fun p => (renderPath acc, p.1, p.2)))
      ++ ((iterNodeChildren node).flatMap
        (fun p => endpointsAux fuel2 (acc ++ [p.1]) p.2 version))

/-- HttpRouter::endpoints from router.rs, as the list of
(reconstructed path, method, endpoint) triples in iteration order.  The
fuel 1000 covers every trie arising in this development. -/
def endpointsList (r : HttpRouter) (version : Option SemVer) :
    List (String × String × ApiEndpoint) :=
  endpointsAux 1000 [] r.root version

/-- The node that the traversal of HttpRouter::insert would reach for a
registration path (given as its raw segments) without panicking en route,
following only edges that already exist: the node holding the method
bucket that the insert would then extend or reject against.  It is none
when the traversal panics en route (bad segment syntax, duplicate or
conflicting variable name, segments after a wildcard) or creates a fresh
node (whose bucket is necessarily empty). -/
def insertReach (varnames : List String) (segs : List String)
    (node : HttpRouterNode) : Option HttpRouterNode :=
  match segs with
  | [] => some node
  | raw :: rest =>
    match PathSegment.fromStr raw with
    | .error _ => none
    | .ok (.literal lit) =>
      match alGet (node.literalEdges.getD []) lit with
      | some child => insertReach varnames rest child
      | none => none
    | .ok (.varnameSegment vn) =>
      if vn ∈ varnames then none
      else
        match node.variableEdge with
        | some (vn0, child) =>
          if vn = vn0 then insertReach (vn :: varnames) rest child else none
        | none => none
    | .ok (.varnameWildcard vn) =>
      if rest ≠ [] then none
      else if vn ∈ varnames then none
      else
        match node.restEdge with
        | some (vn0, child) => if vn = vn0 then some child else none
        | none => none

/-- Two endpoints of one method bucket are compatible when their version
predicates do not overlap. -/
def VersionsCompatible (a b : ApiEndpoint) : Prop :=
  a.versions.overlapsWith b.versions = false

/-- Well-formedness of a trie node: every method bucket is pairwise
non-overlapping, recursively in all children.  HttpRouter::insert
establishes this for every reachable router. -/
inductive NodeWF : HttpRouterNode → Prop where
  | mk (methods : List (String × List ApiEndpoint))
      (litE : Option (List (String × HttpRouterNode)))
      (varE : Option (String × HttpRouterNode))
      (restE : Option (String × HttpRouterNode))
      (hm : ∀ m hs, (m, hs) ∈ methods → hs.Pairwise VersionsCompatible)
      (hl : ∀ lits s n, litE = some lits → (s, n) ∈ lits → NodeWF n)
      (hv : ∀ vn n, varE = some (vn, n) → NodeWF n)
      (hr : ∀ vn n, restE = some (vn, n) → NodeWF n) :
      NodeWF (HttpRouterNode.mk methods litE varE restE)

/-- splitOnSlash always produces at least one chunk. -/
theorem splitOnSlash_ne_nil (cs : List Char) : splitOnSlash cs ≠ [] := by
  cases cs with
  | nil => simp [splitOnSlash]
  | cons c rest =>
    simp only [splitOnSlash]
    cases h : splitOnSlash rest with
    | nil => simp
    | cons s ss =>
      by_cases hc : c = '/' <;> simp [hc]

/-- A leading slash contributes one leading empty chunk. -/
theorem splitOnSlash_cons_slash (cs : List Char) :
    splitOnSlash ('/' :: cs) = [] :: splitOnSlash cs := by
  simp only [splitOnSlash]
  cases h : splitOnSlash cs with
  | nil => exact absurd h (splitOnSlash_ne_nil cs)
  | cons s ss => simp

/-- Request-path parsing ignores a prepended slash: the extra empty
segment is filtered out. -/
theorem input_path_prepend_slash (s : String) :
    input_path_to_segments ("/" ++ s) = input_path_to_segments s := by
  unfold input_path_to_segments
  have h1 : ("/" ++ s).toList = '/' :: s.toList := by
    show (("/" : String) ++ s).data = '/' :: s.data
    rw [String.data_append]
    rfl
  rw [h1, splitOnSlash_cons_slash]
  simp

/-- If some element of a list maps to an error, collecting the mapped
Results short-circuits at some error. -/
theorem collectResults_error_of_mem {A E B : Type} (f : A → Except E B)
    (l : List A) (x : A) (e : E) (hx : x ∈ l) (hfx : f x = .error e) :
    ∃ m, collectResults (l.map f) = Except.error m := by
  induction l with
  | nil => cases hx
  | cons a rest ih =>
    simp only [List.map_cons]
    rcases List.mem_cons.mp hx with rfl | hmem
    · rw [hfx]
      exact ⟨e, rfl⟩
    · cases hfa : f a with
      | error e2 => exact ⟨e2, by simp [collectResults]⟩
      | ok b =>
        obtain ⟨m, hm⟩ := ih hmem
        refine ⟨m, ?_⟩
        simp [collectResults, hm]

/-- The while loop of lookup_route fails only with the unversioned
not-found error. -/
theorem lookup_walk_error (segs : List String) :
    ∀ node vars err, lookup_walk node segs vars = .error err →
      err = LookupError.notFound "no route found (no path in router)" := by
  induction segs with
  | nil => intro node vars err h; cases h
  | cons seg rest ih =>
    intro node vars err h
    simp only [lookup_walk] at h
    cases hlit : alGet (node.literalEdges.getD []) seg with
    | some child => rw [hlit] at h; exact ih child vars err h
    | none =>
      rw [hlit] at h
      cases hvar : node.variableEdge with
      | some p =>
        rw [hvar] at h
        exact ih p.2 _ err h
      | none =>
        rw [hvar] at h
        cases hrest : node.restEdge with
        | some p => rw [hrest] at h; cases h
        | none =>
          rw [hrest] at h
          cases h
          rfl

/-- alGet finds only entries of the list. -/
theorem alGet_mem {V : Type} (l : List (String × V)) (k : String) (v : V)
    (h : alGet l k = some v) : (k, v) ∈ l := by
  induction l with
  | nil => cases h
  | cons p rest ih =>
    obtain ⟨k0, v0⟩ := p
    simp only [alGet] at h
    by_cases hk : k = k0
    · rw [if_pos hk] at h
      cases h
      subst hk
      exact List.mem_cons_self _ _
    · rw [if_neg hk] at h
      exact List.mem_cons_of_mem _ (ih h)

/-- Membership after alInsert: every entry was present before or is the
inserted one. -/
theorem mem_alInsert {V : Type} (l : List (String × V)) (k : String) (v : V)
    (p : String × V) (h : p ∈ alInsert l k v) : p ∈ l ∨ p = (k, v) := by
  induction l with
  | nil =>
    simp only [alInsert] at h
    rcases List.mem_singleton.mp h with rfl
    exact Or.inr rfl
  | cons q rest ih =>
    obtain ⟨k0, v0⟩ := q
    simp only [alInsert] at h
    by_cases hk : k = k0
    · rw [if_pos hk] at h
      rcases List.mem_cons.mp h with rfl | hmem
      · exact Or.inr rfl
      · exact Or.inl (List.mem_cons_of_mem _ hmem)
    · rw [if_neg hk] at h
      by_cases hlt : strLt k k0 = true
      · rw [if_pos hlt] at h
        rcases List.mem_cons.mp h with rfl | hmem
        · exact Or.inr rfl
        · exact Or.inl hmem
      · rw [if_neg hlt] at h
        rcases List.mem_cons.mp h with rfl | hmem
        · exact Or.inl (List.mem_cons_self _ _)
        · rcases ih hmem with hin | rfl
          · exact Or.inl (List.mem_cons_of_mem _ hin)
          · exact Or.inr rfl

/-- The modelled overlap relation is symmetric. -/
theorem overlapsWith_symm (a b : ApiEndpointVersions) :
    a.overlapsWith b = b.overlapsWith a := by
  cases a <;> cases b <;>
    simp [ApiEndpointVersions.overlapsWith, Bool.and_comm]

/-- VersionsCompatible is symmetric. -/
theorem versionsCompatible_symm : Symmetric VersionsCompatible := by
  intro a b h
  unfold VersionsCompatible at h ⊢
  rw [overlapsWith_symm]
  exact h

/-- The terminal step of insert preserves node well-formedness: the
extended bucket stays pairwise non-overlapping because the endpoint is
appended only when it overlaps no existing handler. -/
theorem insertTerminal_wf (e : ApiEndpoint) (path : String)
    (node node2 : HttpRouterNode)
    (hwf : NodeWF node) (h : insertTerminal e path node = .ok node2) :
    NodeWF node2 := by
  simp only [insertTerminal] at h
  cases hfind : ((alGet node.methods (upperString e.method)).getD []).find?
      (fun h2 => h2.versions.overlapsWith e.versions) with
  | some h0 =>
    rw [hfind] at h
    by_cases hv : h0.versions = e.versions <;> simp [hv] at h
  | none =>
    rw [hfind] at h
    cases h
    cases node with
    | mk m l v r =>
      cases hwf with
      | mk _ _ _ _ hm hl hv hr =>
        refine NodeWF.mk _ _ _ _ ?_ hl hv hr
        intro m2 hs2 hmem2
        rcases mem_alInsert _ _ _ _ hmem2 with hin | heq
        · exact hm m2 hs2 hin
        · have hpair : ((alGet (HttpRouterNode.mk m l v r).methods
              (upperString e.method)).getD []).Pairwise VersionsCompatible := by
            cases hget : alGet (HttpRouterNode.mk m l v r).methods
                (upperString e.method) with
            | some hs => exact hm _ hs (alGet_mem _ _ _ hget)
            | none => simp
          have hcomp : ∀ a ∈ (alGet (HttpRouterNode.mk m l v r).methods
              (upperString e.method)).getD [], VersionsCompatible a e := by
            intro a ha
            have := List.find?_eq_none.mp hfind a ha
            unfold VersionsCompatible
            simpa using this
          cases heq
          rw [List.pairwise_append]
          refine ⟨hpair, List.pairwise_singleton _ _, ?_⟩
          intro a ha b hb
          rcases List.mem_singleton.mp hb with rfl
          exact hcomp a ha

/-- The empty node is well formed. -/
theorem nodeWF_new : NodeWF HttpRouterNode.new :=
  NodeWF.mk _ _ _ _ (by intro _ _ h2; cases h2)
    (by intro _ _ _ h2; cases h2)
    (by intro _ _ h2; cases h2)
    (by intro _ _ h2; cases h2)

/-- insertSegs preserves node well-formedness. -/
theorem insertSegs_wf (segs : List String) :
    ∀ (e : ApiEndpoint) (path : String) (varnames : List String)
      (node node2 : HttpRouterNode), NodeWF node →
      insertSegs e path varnames segs node = .ok node2 → NodeWF node2 := by
  induction segs with
  | nil =>
    intro e path vs node node2 hwf h
    simp only [insertSegs] at h
    exact insertTerminal_wf e path node node2 hwf h
  | cons raw rest ih =>
    intro e path varnames node node2 hwf h
    rw [insertSegs.eq_def] at h
    simp only at h
    cases hps : PathSegment.fromStr raw with
    | error msg => rw [hps] at h; cases h
    | ok seg =>
      rw [hps] at h
      cases node with
      | mk m l v r =>
        cases hwf with
        | mk _ _ _ _ hm hl hv hr =>
          have hlwf : ∀ s n, (s, n) ∈ l.getD [] → NodeWF n := by
            intro s n hin
            cases hld : l with
            | none => rw [hld] at hin; cases hin
            | some lits =>
              rw [hld] at hin
              exact hl lits s n hld hin
          cases seg with
          | literal lit =>
            simp only [HttpRouterNode.literalEdges] at h
            cases hrec : insertSegs e path varnames rest
                ((alGet (l.getD []) lit).getD HttpRouterNode.new) with
            | error msg => rw [hrec] at h; cases h
            | ok child2 =>
              rw [hrec] at h
              cases h
              have hchild : NodeWF ((alGet (l.getD []) lit).getD
                  HttpRouterNode.new) := by
                cases hget : alGet (l.getD []) lit with
                | some child =>
                  simp only [Option.getD]
                  exact hlwf lit child (alGet_mem _ _ _ hget)
                | none => exact nodeWF_new
              have hwf2 := ih e path varnames _ child2 hchild hrec
              refine NodeWF.mk _ _ _ _ hm ?_ hv hr
              intro lits2 s n hsome hmem
              cases hsome
              rcases mem_alInsert _ _ _ _ hmem with hin | heq
              · exact hlwf s n hin
              · cases heq
                exact hwf2
          | varnameSegment vn =>
            simp only [HttpRouterNode.variableEdge] at h
            by_cases hdup : vn ∈ varnames
            · rw [if_pos hdup] at h; cases h
            · rw [if_neg hdup] at h
              cases hve : v with
              | none =>
                rw [hve] at h
                try simp only at h
                cases hrec : insertSegs e path (vn :: varnames) rest
                    HttpRouterNode.new with
                | error msg => rw [hrec] at h; cases h
                | ok child2 =>
                  rw [hrec] at h
                  cases h
                  have hwf2 := ih e path (vn :: varnames) _ child2 nodeWF_new hrec
                  refine NodeWF.mk _ _ _ _ hm hl ?_ hr
                  intro vn2 n2 hsome
                  cases hsome
                  exact hwf2
              | some p =>
                obtain ⟨vn0, child⟩ := p
                rw [hve] at h
                try simp only at h
                by_cases hne : vn ≠ vn0
                · rw [if_pos hne] at h; cases h
                · rw [if_neg hne] at h
                  cases hrec : insertSegs e path (vn :: varnames) rest child with
                  | error msg => rw [hrec] at h; cases h
                  | ok child2 =>
                    rw [hrec] at h
                    cases h
                    have hchild := hv vn0 child hve
                    have hwf2 := ih e path (vn :: varnames) _ child2 hchild hrec
                    refine NodeWF.mk _ _ _ _ hm hl ?_ hr
                    intro vn2 n2 hsome
                    cases hsome
                    exact hwf2
          | varnameWildcard vn =>
            simp only [HttpRouterNode.restEdge] at h
            by_cases hrest : rest ≠ []
            · rw [if_pos hrest] at h; cases h
            · rw [if_neg hrest] at h
              by_cases hdup : vn ∈ varnames
              · rw [if_pos hdup] at h; cases h
              · rw [if_neg hdup] at h
                cases hre : r with
                | none =>
                  rw [hre] at h
                  try simp only at h
                  cases hrec : insertTerminal e path HttpRouterNode.new with
                  | error msg => rw [hrec] at h; cases h
                  | ok child2 =>
                    rw [hrec] at h
                    cases h
                    have hwf2 := insertTerminal_wf e path
                      _ child2 nodeWF_new hrec
                    refine NodeWF.mk _ _ _ _ hm hl hv ?_
                    intro vn2 n2 hsome
                    cases hsome
                    exact hwf2
                | some p =>
                  obtain ⟨vn0, child⟩ := p
                  rw [hre] at h
                  try simp only at h
                  by_cases hne : vn ≠ vn0
                  · rw [if_pos hne] at h; cases h
                  · rw [if_neg hne] at h
                    cases hrec : insertTerminal e path child with
                    | error msg => rw [hrec] at h; cases h
                    | ok child2 =>
                      rw [hrec] at h
                      cases h
                      have hchild := hr vn0 child hre
                      have hwf2 := insertTerminal_wf e path
                        _ child2 hchild hrec
                      refine NodeWF.mk _ _ _ _ hm hl hv ?_
                      intro vn2 n2 hsome
                      cases hsome
                      exact hwf2

/-- A successful insert preserves root well-formedness. -/
theorem insert_wf (r r2 : HttpRouter) (e : ApiEndpoint)
    (hwf : NodeWF r.root) (h : r.insert e = .ok r2) : NodeWF r2.root := by
  unfold HttpRouter.insert at h
  cases hseg : route_path_to_segments e.path with
  | error msg => rw [hseg] at h; cases h
  | ok segs =>
    rw [hseg] at h
    try simp only at h
    cases hins : insertSegs e e.path [] segs r.root with
    | error msg => rw [hins] at h; cases h
    | ok root2 =>
      rw [hins] at h
      cases h
      exact insertSegs_wf segs e e.path [] r.root root2 hwf hins

/-- Registering a list of endpoints preserves root well-formedness. -/
theorem insertAll_wf (eps : List ApiEndpoint) :
    ∀ (r r2 : HttpRouter), NodeWF r.root → insertAll r eps = .ok r2 →
      NodeWF r2.root := by
  induction eps with
  | nil =>
    intro r r2 hwf h
    cases h
    exact hwf
  | cons e rest ih =>
    intro r r2 hwf h
    simp only [insertAll] at h
    cases hins : r.insert e with
    | error msg => rw [hins] at h; cases h
    | ok rmid =>
      rw [hins] at h
      exact ih rmid r2 (insert_wf r rmid e hwf hins) h

/-- Every router built from HttpRouter::new() by successful inserts has a
well-formed trie: every method bucket of every node is pairwise
non-overlapping. -/
theorem buildRouter_wf (eps : List ApiEndpoint) (r : HttpRouter)
    (h : buildRouter eps = .ok r) : NodeWF r.root := by
  have hnew : NodeWF HttpRouter.new.root := nodeWF_new
  exact insertAll_wf eps HttpRouter.new r hnew h

/-- The node reached by the insert traversal of a well-formed node is
well formed. -/
theorem insertReach_wf (segs : List String) :
    ∀ (varnames : List String) (node tnode : HttpRouterNode), NodeWF node →
      insertReach varnames segs node = some tnode → NodeWF tnode := by
  induction segs with
  | nil =>
    intro vs node tnode hwf h
    cases h
    exact hwf
  | cons raw rest ih =>
    intro vs node tnode hwf h
    simp only [insertReach] at h
    cases hps : PathSegment.fromStr raw with
    | error msg => rw [hps] at h; cases h
    | ok seg =>
      rw [hps] at h
      cases node with
      | mk m l v r =>
        cases hwf with
        | mk _ _ _ _ hm hl hv hr =>
          cases seg with
          | literal lit =>
            simp only [HttpRouterNode.literalEdges] at h
            cases hget : alGet (l.getD []) lit with
            | none => rw [hget] at h; cases h
            | some child =>
              rw [hget] at h
              have hchild : NodeWF child := by
                cases hld : l with
                | none => rw [hld] at hget; cases hget
                | some lits =>
                  rw [hld] at hget
                  exact hl lits lit child hld (alGet_mem _ _ _ hget)
              exact ih vs child tnode hchild h
          | varnameSegment vn =>
            simp only [HttpRouterNode.variableEdge] at h
            by_cases hdup : vn ∈ vs
            · rw [if_pos hdup] at h; cases h
            · rw [if_neg hdup] at h
              cases hve : v with
              | none => rw [hve] at h; cases h
              | some p =>
                obtain ⟨vn0, child⟩ := p
                rw [hve] at h
                try simp only at h
                by_cases heq : vn = vn0
                · rw [if_pos heq] at h
                  exact ih _ child tnode (hv vn0 child hve) h
                · rw [if_neg heq] at h; cases h
          | varnameWildcard vn =>
            simp only [HttpRouterNode.restEdge] at h
            by_cases hrest : rest ≠ []
            · rw [if_pos hrest] at h; cases h
            · rw [if_neg hrest] at h
              by_cases hdup : vn ∈ vs
              · rw [if_pos hdup] at h; cases h
              · rw [if_neg hdup] at h
                cases hre : r with
                | none => rw [hre] at h; cases h
                | some p =>
                  obtain ⟨vn0, child⟩ := p
                  rw [hre] at h
                  try simp only at h
                  by_cases heq : vn = vn0
                  · rw [if_pos heq] at h
                    have h2 := Option.some.inj h
                    exact h2 ▸ hr vn0 child hre
                  · rw [if_neg heq] at h; cases h

/-- In a pairwise non-overlapping bucket, the first handler overlapping
the incoming predicate has a predicate equal to it exactly when some
handler in the bucket has a predicate equal to it. -/
theorem find_overlap_eq_iff (hs : List ApiEndpoint) (e h0 : ApiEndpoint)
    (hp : hs.Pairwise VersionsCompatible)
    (hf : hs.find? (fun h => h.versions.overlapsWith e.versions) = some h0) :
    ((∃ h2 ∈ hs, h2.versions = e.versions) ↔ h0.versions = e.versions) := by
  constructor
  · rintro ⟨h2, hmem2, heq⟩
    have hmem0 : h0 ∈ hs := List.mem_of_find?_eq_some hf
    have hov : h0.versions.overlapsWith e.versions = true := by
      have := List.find?_some hf
      simpa using this
    by_cases hcase : h0 = h2
    · rw [hcase]
      exact heq
    · exfalso
      have hcomp : VersionsCompatible h0 h2 :=
        hp.forall versionsCompatible_symm hmem0 hmem2 hcase
      unfold VersionsCompatible at hcomp
      rw [heq] at hcomp
      rw [hov] at hcomp
      cases hcomp
  · intro heq0
    exact ⟨h0, List.mem_of_find?_eq_some hf, heq0⟩

/-- Terminal step of insert against a bucket with an overlapping handler:
the panic message is chosen by whether the first overlapping handler has
an identical predicate. -/
theorem insertTerminal_error (node : HttpRouterNode) (e : ApiEndpoint)
    (path : String) (h0 : ApiEndpoint)
    (hf : ((alGet node.methods (upperString e.method)).getD []).find?
      (fun h => h.versions.overlapsWith e.versions) = some h0) :
    insertTerminal e path node =
      .error (if h0.versions = e.versions then
          duplicateRouteMsg path (upperString e.method)
        else overlappingRangesMsg path (upperString e.method)) := by
  simp only [insertTerminal, hf]
  split <;> rfl

/-- If the insert traversal reaches an existing node whose bucket for the
endpoint's method contains an overlapping handler (h0 being the first
such), then the insert panics with the message determined by h0. -/
theorem insertSegs_reach_error (segs : List String) :
    ∀ (varnames : List String) (node tnode : HttpRouterNode)
      (e : ApiEndpoint) (path : String) (h0 : ApiEndpoint),
      insertReach varnames segs node = some tnode →
      ((alGet tnode.methods (upperString e.method)).getD []).find?
        (fun h => h.versions.overlapsWith e.versions) = some h0 →
      insertSegs e path varnames segs node =
        .error (if h0.versions = e.versions then
            duplicateRouteMsg path (upperString e.method)
          else overlappingRangesMsg path (upperString e.method)) := by
  induction segs with
  | nil =>
    intro vs node tnode e path h0 hreach hf
    have h2 := Option.some.inj hreach
    subst h2
    simp only [insertSegs]
    exact insertTerminal_error node e path h0 hf
  | cons raw rest ih =>
    intro vs node tnode e path h0 hreach hf
    simp only [insertReach] at hreach
    rw [insertSegs.eq_def]
    cases hps : PathSegment.fromStr raw with
    | error msg => rw [hps] at hreach; cases hreach
    | ok seg =>
      rw [hps] at hreach
      cases seg with
      | literal lit =>
        simp only at hreach
        cases hget : alGet (node.literalEdges.getD []) lit with
        | none => rw [hget] at hreach; cases hreach
        | some child =>
          rw [hget] at hreach
          try simp only at hreach
          have hrec := ih vs child tnode e path h0 hreach hf
          simp only [hps, hget, Option.getD_some, hrec]
      | varnameSegment vn =>
        simp only at hreach
        by_cases hdup : vn ∈ vs
        · rw [if_pos hdup] at hreach; cases hreach
        · rw [if_neg hdup] at hreach
          cases hve : node.variableEdge with
          | none => rw [hve] at hreach; cases hreach
          | some p =>
            obtain ⟨vn0, child⟩ := p
            rw [hve] at hreach
            try simp only at hreach
            by_cases heq : vn = vn0
            · rw [if_pos heq] at hreach
              have hrec := ih (vn :: vs) child tnode e path h0 hreach hf
              have hne : ¬vn ≠ vn0 := by simpa using heq
              simp only [hps, if_neg hdup, hve, if_neg hne, hrec]
            · rw [if_neg heq] at hreach; cases hreach
      | varnameWildcard vn =>
        simp only at hreach
        by_cases hrest : rest ≠ []
        · rw [if_pos hrest] at hreach; cases hreach
        · rw [if_neg hrest] at hreach
          by_cases hdup : vn ∈ vs
          · rw [if_pos hdup] at hreach; cases hreach
          · rw [if_neg hdup] at hreach
            cases hre : node.restEdge with
            | none => rw [hre] at hreach; cases hreach
            | some p =>
              obtain ⟨vn0, child⟩ := p
              rw [hre] at hreach
              try simp only at hreach
              by_cases heq : vn = vn0
              · rw [if_pos heq] at hreach
                have h2 := Option.some.inj hreach
                subst h2
                have hrec := insertTerminal_error child e path h0 hf
                have hne : ¬vn ≠ vn0 := by simpa using heq
                simp only [hps, if_neg hrest, if_neg hdup, hre, if_neg hne, hrec]
              · rw [if_neg heq] at hreach; cases hreach

/-- Every method bucket of a well-formed node is pairwise
non-overlapping. -/
theorem bucket_pairwise (node : HttpRouterNode) (m : String)
    (hwf : NodeWF node) :
    ((alGet node.methods m).getD []).Pairwise VersionsCompatible := by
  cases node with
  | mk ms l v r =>
    cases hwf with
    | mk _ _ _ _ hm hl hv hr =>
      cases hget : alGet (HttpRouterNode.mk ms l v r).methods m with
      | none => simp
      | some hs =>
        simp only [Option.getD]
        exact hm m hs (alGet_mem _ _ _ hget)

/-- Claim C7: inserting an endpoint whose version predicate overlaps some
already-registered endpoint at the same trie node and method panics
without producing a router: with the duplicate-route message when some
existing predicate is identical, and with the overlapping-ranges message
otherwise. -/
theorem c7_insert_overlap_panics (eps : List ApiEndpoint) (r : HttpRouter)
    (e : ApiEndpoint) (segs : List String) (tnode : HttpRouterNode)
    (hbuild : buildRouter eps = .ok r)
    (hsegs : route_path_to_segments e.path = .ok segs)
    (hreach : insertReach [] segs r.root = some tnode)
    (hov : ∃ h ∈ (alGet tnode.methods (upperString e.method)).getD [],
      h.versions.overlapsWith e.versions = true) :
    r.insert e = .error
      (if ∃ h2 ∈ (alGet tnode.methods (upperString e.method)).getD [],
          h2.versions = e.versions then
        duplicateRouteMsg e.path (upperString e.method)
      else overlappingRangesMsg e.path (upperString e.method)) := by
  have hwf : NodeWF r.root := buildRouter_wf eps r hbuild
  have htwf : NodeWF tnode := insertReach_wf segs [] r.root tnode hwf hreach
  have hpair := bucket_pairwise tnode (upperString e.method) htwf
  have hfind : (((alGet tnode.methods (upperString e.method)).getD []).find?
      (fun h => h.versions.overlapsWith e.versions)).isSome := by
    rw [List.find?_isSome]
    obtain ⟨h2, hmem, hover⟩ := hov
    exact ⟨h2, hmem, hover⟩
  obtain ⟨h0, hf⟩ := Option.isSome_iff_exists.mp hfind
  have hiff := find_overlap_eq_iff _ e h0 hpair hf
  have hmain := insertSegs_reach_error segs [] r.root tnode e e.path h0
    hreach hf
  unfold HttpRouter.insert
  rw [hsegs]
  try simp only
  rw [hmain]
  by_cases hx : h0.versions = e.versions
  · rw [if_pos hx, if_pos (hiff.mpr hx)]
  · rw [if_neg hx, if_neg (fun hcontra => hx (hiff.mp hcontra))]

/-- A successful insert updates the versioned-routes flag exactly for a
non-All predicate. -/
theorem insert_flag (r r2 : HttpRouter) (e : ApiEndpoint)
    (h : r.insert e = .ok r2) :
    r2.has_versioned_routes =
      (if e.versions ≠ ApiEndpointVersions.all then true
       else r.has_versioned_routes) := by
  unfold HttpRouter.insert at h
  cases hseg : route_path_to_segments e.path with
  | error msg => rw [hseg] at h; cases h
  | ok segs =>
    rw [hseg] at h
    try simp only at h
    cases hins : insertSegs e e.path [] segs r.root with
    | error msg => rw [hins] at h; cases h
    | ok root2 =>
      rw [hins] at h
      cases h
      rfl

/-- Registering endpoints accumulates the versioned-routes flag. -/
theorem insertAll_flag (eps : List ApiEndpoint) :
    ∀ (r r2 : HttpRouter), insertAll r eps = .ok r2 →
      (r2.has_versioned_routes = true ↔ r.has_versioned_routes = true ∨
        ∃ e ∈ eps, e.versions ≠ ApiEndpointVersions.all) := by
  induction eps with
  | nil =>
    intro r r2 h
    cases h
    simp
  | cons e rest ih =>
    intro r r2 h
    simp only [insertAll] at h
    cases hins : r.insert e with
    | error msg => rw [hins] at h; cases h
    | ok rmid =>
      rw [hins] at h
      have hmid := ih rmid r2 h
      have hflag := insert_flag r rmid e hins
      rw [hmid, hflag]
      by_cases hall : e.versions = ApiEndpointVersions.all
      · have : ¬ e.versions ≠ ApiEndpointVersions.all := by simpa using hall
        rw [if_neg this]
        constructor
        · rintro (hr2 | ⟨e2, hmem, hne⟩)
          · exact Or.inl hr2
          · exact Or.inr ⟨e2, List.mem_cons_of_mem _ hmem, hne⟩
        · rintro (hr2 | ⟨e2, hmem, hne⟩)
          · exact Or.inl hr2
          · rcases List.mem_cons.mp hmem with rfl | hmem2
            · exact absurd hall hne
            · exact Or.inr ⟨e2, hmem2, hne⟩
      · rw [if_pos hall]
        constructor
        · intro _
          exact Or.inr ⟨e, List.mem_cons_self _ _, hall⟩
        · intro _
          exact Or.inl rfl

/-- Endpoint GET /foo used for claim C1. -/
def eC1lit : ApiEndpoint :=
  { handler := "lit", operationId := "op_lit", method := "GET",
    path := "/foo", versions := .all }

/-- Endpoint GET /foo/(p:.*) used for claim C1. -/
def eC1wild : ApiEndpoint :=
  { handler := "wild", operationId := "op_wild", method := "GET",
    path := "/foo/\x7bp:.*\x7d", versions := .all }

/-- Router with routes GET /foo and GET /foo/(p:.*). -/
def rC1 : HttpRouter := routerOf [eC1lit, eC1wild]

/-- The trie node reached by the request path /foo in rC1: it carries an
explicit GET endpoint and also a wildcard edge. -/
def fooNodeC1 : HttpRouterNode :=
  .mk [("GET", [eC1lit])] none none
    (some ("p", .mk [("GET", [eC1wild])] none none none))

/-- Claim C1, counterexample: in a router with GET /foo and GET /foo/(p:.*),
looking up GET /foo reaches a node that has an explicit version-matching
GET endpoint, yet the result is the wildcard endpoint with p bound to the
empty list: the wildcard edge is followed even though an explicit method
match exists, refuting the claimed precedence. -/
theorem c1_counterexample :
    rC1.lookup_route "GET" "/foo" none =
      .ok { handler := "wild", operationId := "op_wild",
            vars := [("p", VariableValue.components [])] }
    ∧ lookup_walk rC1.root ["foo"] [] = .ok (fooNodeC1, [])
    ∧ (find_handler_matching_version
        ((alGet fooNodeC1.methods "GET").getD []) none).isSome = true
    ∧ ("wild" : String) ≠ "lit" :=
  ⟨rfl, rfl, rfl, by decide⟩

/-- Claim C1, amended: after consuming all request segments, if the reached node
has a wildcard edge then lookup always follows it, binding the wildcard
variable to the empty Components list, regardless of any endpoint
registered at the reached node; in particular a registration of a bare
wildcard path matches the empty request path with the variable bound to
the empty list. -/
theorem c1_wildcard_followed_unconditionally
    (r : HttpRouter) (method path : String) (version : Option SemVer)
    (segs : List String) (node child : HttpRouterNode) (vars : VariableSet)
    (vn : String)
    (hsegs : input_path_to_segments path = .ok segs)
    (hwalk : lookup_walk r.root segs [] = .ok (node, vars))
    (hrest : node.restEdge = some (vn, child)) :
    r.lookup_route method path version =
      lookup_classify child (alInsert vars vn (VariableValue.components []))
        method version := by
  unfold HttpRouter.lookup_route
  rw [hsegs]
  try simp only
  rw [hwalk]
  simp only [consume_empty_wildcard, hrest]

/-- Endpoint GET on the bare wildcard path, used for the C1 witness. -/
def eC1only : ApiEndpoint :=
  { handler := "w", operationId := "op_w", method := "GET",
    path := "/\x7bp:.*\x7d", versions := .all }

/-- Router whose only route is the bare wildcard registration. -/
def rC1w : HttpRouter := routerOf [eC1only]

/-- Claim C1 witness: instantiating the amended theorem at the bare wildcard
router and the empty request path shows that the request / matches the
wildcard registration with p bound to the empty list. -/
theorem c1_wildcard_followed_unconditionally_witness :
    rC1w.lookup_route "GET" "/" none =
      Except.ok { handler := "w", operationId := "op_w",
                  vars := [("p", VariableValue.components [])] } := by
  have h := c1_wildcard_followed_unconditionally rC1w "GET" "/" none []
    rC1w.root (HttpRouterNode.mk [("GET", [eC1only])] none none none) [] "p"
    rfl rfl rfl
  rw [h]
  rfl

/-- Endpoint GET /foo valid for every version, used for claim C2. -/
def eC2get : ApiEndpoint :=
  { handler := "g", operationId := "op_g", method := "GET",
    path := "/foo", versions := .all }

/-- Endpoint PUT /foo valid only from version 2.0.0, used for claim C2. -/
def eC2put : ApiEndpoint :=
  { handler := "p", operationId := "op_p", method := "PUT",
    path := "/foo", versions := .fromV ⟨2, 0, 0⟩ }

/-- Router with GET /foo (All) and PUT /foo (From 2.0.0). -/
def rC2 : HttpRouter := routerOf [eC2get, eC2put]

/-- The node reached by the request path /foo in rC2. -/
def fooNodeC2 : HttpRouterNode :=
  .mk [("GET", [eC2get]), ("PUT", [eC2put])] none none none

/-- Claim C2, counterexample: a POST lookup of /foo at version 1.0.0 yields 405
with Allow values GET and PUT, although the PUT bucket of the resolved
node has no endpoint matching version 1.0.0: the Allow set is not the set
of version-matching methods claimed. -/
theorem c2_counterexample :
    rC2.lookup_route "POST" "/foo" (some ⟨1, 0, 0⟩) =
      .error (.methodNotAllowed ["GET", "PUT"])
    ∧ lookup_walk rC2.root ["foo"] [] = .ok (fooNodeC2, [])
    ∧ find_handler_matching_version
        ((alGet fooNodeC2.methods "PUT").getD []) (some ⟨1, 0, 0⟩) = none :=
  ⟨rfl, rfl, rfl⟩

/-- Claim C2, amended: whenever lookup produces Method Not Allowed, the Allow
values are exactly the method keys present at the resolved node, in
sorted key order, regardless of whether those methods have an endpoint
matching the request version. -/
theorem c2_allow_lists_all_methods (r : HttpRouter) (method path : String)
    (version : Option SemVer) (allow : List String)
    (h : r.lookup_route method path version =
      .error (.methodNotAllowed allow)) :
    ∃ segs p, input_path_to_segments path = .ok segs ∧
      lookup_walk r.root segs [] = .ok p ∧
      allow = (consume_empty_wildcard p).1.methods.map Prod.fst := by
  unfold HttpRouter.lookup_route at h
  cases hsegs : input_path_to_segments path with
  | error msg => rw [hsegs] at h; cases h
  | ok segs =>
    rw [hsegs] at h
    try simp only at h
    cases hwalk : lookup_walk r.root segs [] with
    | error err =>
      rw [hwalk] at h
      have := lookup_walk_error segs r.root [] err hwalk
      subst this
      cases h
    | ok p =>
      rw [hwalk] at h
      try simp only at h
      simp only [lookup_classify] at h
      cases hfind : find_handler_matching_version
          ((alGet (consume_empty_wildcard p).1.methods
            (upperString method)).getD []) version with
      | some h2 => rw [hfind] at h; cases h
      | none =>
        rw [hfind] at h
        by_cases hany : ((consume_empty_wildcard p).1.methods.map Prod.snd).any
            (fun hs => (find_handler_matching_version hs version).isSome) = true
        · rw [if_pos hany] at h
          have hallow := (LookupError.methodNotAllowed.inj
            (Except.error.inj h)).symm
          exact ⟨segs, p, rfl, hwalk, hallow⟩
        · rw [if_neg hany] at h
          cases h

/-- Claim C2 witness: instantiating the amended theorem at the C2 router, where
the 405 Allow list is GET, PUT even though PUT matches no endpoint at
version 1.0.0. -/
theorem c2_allow_lists_all_methods_witness :
    ∃ segs p, input_path_to_segments "/foo" = .ok segs ∧
      lookup_walk rC2.root segs [] = .ok p ∧
      ["GET", "PUT"] = (consume_empty_wildcard p).1.methods.map Prod.fst :=
  c2_allow_lists_all_methods rC2 "POST" "/foo" (some ⟨1, 0, 0⟩)
    ["GET", "PUT"] rfl

/-- Endpoint OPTIONS /console/(path:.*), used for claim C3. -/
def eC3 : ApiEndpoint :=
  { handler := "h8", operationId := "op_h8", method := "OPTIONS",
    path := "/console/\x7bpath:.*\x7d", versions := .all }

/-- Router with the single route OPTIONS /console/(path:.*). -/
def rC3 : HttpRouter := routerOf [eC3]

/-- Claim C3: the endpoints iterator renders the wildcard registration
/console/(path:.*) as "/console/(path)" without the :.* pattern suffix,
because iter_node wraps rest edges in PathSegment::VarnameSegment; the
VarnameWildcard rendering arm of HttpRouterIter::path is unreachable.
This contradicts the claimed "/console/(path:.*)" reconstruction. -/
theorem c3_wildcard_rendered_without_pattern :
    endpointsList rC3 none = [("/console/\x7bpath\x7d", "OPTIONS", eC3)]
    ∧ ("/console/\x7bpath\x7d" : String) ≠ "/console/\x7bpath:.*\x7d" :=
  ⟨rfl, by decide⟩

/-- Claim C4, counterexample: looking up the dot-segment path /. produces a 400
whose message is the fixed string "invalid path encoding", not the
claimed "dot-segments are not permitted" (lookup_route discards the inner
parse-error message). -/
theorem c4_counterexample :
    HttpRouter.new.lookup_route "GET" "/." none =
      .error (.badRequest "invalid path encoding")
    ∧ ("invalid path encoding" : String) ≠ "dot-segments are not permitted" :=
  ⟨rfl, by decide⟩

/-- Claim C4, amended: for every method, version and request path one of whose
non-empty raw segments is "." or "..", lookup returns Bad Request; the
segment parser fails with "dot-segments are not permitted", but the
surfaced error message is the fixed string "invalid path encoding". -/
theorem c4_dot_segment_bad_request (r : HttpRouter) (method : String)
    (version : Option SemVer) (path : String)
    (hdot : ∃ seg ∈ (splitOnSlash path.toList).filter (fun s => s ≠ []),
      seg = ['.'] ∨ seg = ['.', '.']) :
    r.lookup_route method path version =
      .error (.badRequest "invalid path encoding") := by
  obtain ⟨seg, hmem, hdotseg⟩ := hdot
  have hseg : decodeSegment seg = .error "dot-segments are not permitted" := by
    unfold decodeSegment
    rw [if_pos hdotseg]
  obtain ⟨m, hm⟩ := collectResults_error_of_mem decodeSegment
    ((splitOnSlash path.toList).filter (fun s => s ≠ [])) seg
    "dot-segments are not permitted" hmem hseg
  have hin : input_path_to_segments path = .error m := hm
  unfold HttpRouter.lookup_route
  rw [hin]

/-- Claim C4 witness: the amended theorem applied to the concrete dot-segment
request path /. on the empty router. -/
theorem c4_dot_segment_bad_request_witness :
    HttpRouter.new.lookup_route "PUT" "/." none =
      .error (.badRequest "invalid path encoding") :=
  c4_dot_segment_bad_request HttpRouter.new "PUT" none "/." (by decide)

/-- Claim C5: the normalization examples of the contract: "/", "//", "////" all
normalize to the empty segment sequence, "/a//b/" to a, b, and
"/baz%2fbuzz" to the single segment baz/buzz (the percent-decoded slash
does not re-split the segment). -/
theorem c5_normalization_examples :
    input_path_to_segments "/" = .ok []
    ∧ input_path_to_segments "//" = .ok []
    ∧ input_path_to_segments "////" = .ok []
    ∧ input_path_to_segments "/a//b/" = .ok ["a", "b"]
    ∧ input_path_to_segments "/baz%2fbuzz" = .ok ["baz/buzz"] :=
  ⟨rfl, rfl, rfl, rfl, rfl⟩

/-- Endpoint GET /projects/default, used for claim C6. -/
def eC6a : ApiEndpoint :=
  { handler := "route_one", operationId := "op1", method := "GET",
    path := "/projects/default", versions := .all }

/-- Endpoint GET /(id)/default/lol, used for claim C6. -/
def eC6b : ApiEndpoint :=
  { handler := "route_two", operationId := "op2", method := "GET",
    path := "/\x7bid\x7d/default/lol", versions := .all }

/-- Router with exactly GET /projects/default and GET /(id)/default/lol. -/
def rC6 : HttpRouter := routerOf [eC6a, eC6b]

/-- Claim C6: with routes /projects/default and /(id)/default/lol, the request
/projects/default/lol is Not Found (the literal edge taken for projects
is never backtracked into the sibling variable edge), while
/some_id/default/lol matches the variable route with id bound to
some_id. -/
theorem c6_no_backtracking :
    rC6.lookup_route "GET" "/projects/default/lol" none =
      .error (.notFound "no route found (no path in router)")
    ∧ rC6.lookup_route "GET" "/some_id/default/lol" none =
      .ok { handler := "route_two", operationId := "op2",
            vars := [("id", VariableValue.string "some_id")] } :=
  ⟨rfl, rfl⟩

/-- Endpoint GET /boo from version 1.2.3, used for claim C7. -/
def eC7a : ApiEndpoint :=
  { handler := "a", operationId := "op_a", method := "GET",
    path := "/boo", versions := .fromV ⟨1, 2, 3⟩ }

/-- A second endpoint GET /boo with the identical version predicate. -/
def eC7b : ApiEndpoint :=
  { handler := "b", operationId := "op_b", method := "GET",
    path := "/boo", versions := .fromV ⟨1, 2, 3⟩ }

/-- Router with the single route GET /boo from version 1.2.3. -/
def rC7 : HttpRouter := routerOf [eC7a]

/-- The trie node holding the GET bucket for /boo in rC7. -/
def tnodeC7 : HttpRouterNode := .mk [("GET", [eC7a])] none none none

/-- Claim C7 witness: inserting a duplicate of the registered GET /boo endpoint
panics with the duplicate-route message. -/
theorem c7_insert_overlap_panics_witness :
    rC7.insert eC7b = .error (duplicateRouteMsg "/boo" "GET") := by
  have h := c7_insert_overlap_panics [eC7a] rC7 eC7b ["boo"] tnodeC7
    rfl rfl rfl (by decide)
  exact h.trans (congrArg Except.error (if_pos (by decide)))

/-- Claim C8: for every router obtained from HttpRouter::new() by a finite
sequence of successful inserts, the versioned-routes flag is true exactly
when at least one inserted endpoint has a non-All version predicate. -/
theorem c8_has_versioned_routes_iff (eps : List ApiEndpoint)
    (r : HttpRouter) (h : buildRouter eps = .ok r) :
    (r.has_versioned_routes = true ↔
      ∃ e ∈ eps, e.versions ≠ ApiEndpointVersions.all) := by
  have hflag := insertAll_flag eps HttpRouter.new r h
  simpa [HttpRouter.new] using hflag

/-- Endpoint GET /v constrained to versions from 1.0.0, for the C8
witness. -/
def eC8 : ApiEndpoint :=
  { handler := "v", operationId := "op_v", method := "GET",
    path := "/v", versions := .fromV ⟨1, 0, 0⟩ }

/-- Router with the single versioned route GET /v. -/
def rC8 : HttpRouter := routerOf [eC8]

/-- Claim C8 witness: the flag equivalence instantiated at a router built from
one endpoint with a non-All predicate. -/
theorem c8_has_versioned_routes_iff_witness :
    (rC8.has_versioned_routes = true ↔
      ∃ e ∈ [eC8], e.versions ≠ ApiEndpointVersions.all) :=
  c8_has_versioned_routes_iff [eC8] rC8 rfl

/-- Endpoint GET /(x), used for claim C9. -/
def eC9 : ApiEndpoint :=
  { handler := "h9", operationId := "op9", method := "GET",
    path := "/\x7bx\x7d", versions := .all }

/-- Router with the single route GET /(x). -/
def rC9 : HttpRouter := routerOf [eC9]

/-- Claim C9: a segment that is a percent-encoding of ".." (here %2E%2E) is not
rejected by input-path parsing: it decodes to ".." and participates in
matching, so a lookup can bind a path variable to the string "..". -/
theorem c9_encoded_dots_pass :
    input_path_to_segments "/%2E%2E" = .ok [".."]
    ∧ rC9.lookup_route "GET" "/%2E%2E" none =
      .ok { handler := "h9", operationId := "op9",
            vars := [("x", VariableValue.string "..")] } :=
  ⟨rfl, rfl⟩

/-- Claim C10: request-path parsing splits on slashes and discards empty
segments, so prepending a slash to any request path never changes the
result of any lookup: paths with a missing leading slash behave as if it
were present. -/
theorem c10_leading_slash_irrelevant (r : HttpRouter)
    (method path : String) (version : Option SemVer) :
    r.lookup_route method ("/" ++ path) version =
      r.lookup_route method path version := by
  unfold HttpRouter.lookup_route
  rw [input_path_prepend_slash]
